import Mathlib

/-
Verification of `vlnce_baselines/common/ddppo_alg.py` (VLN-CE WDDPPO/CWDDPPO
trainer and its negative-feature streaming dataset).

Shallow embedding conventions:
* Tensors are `List ℝ` (flat) or `List (List ℝ)` (a `(T, N)`-shaped tensor as a
  list of rows).  Float arithmetic is idealized as exact real arithmetic;
  `torch.exp` is `Real.exp` and `torch.Tensor.std` is the Bessel-corrected
  sample standard deviation (PyTorch's default `unbiased=True`).
* `random.shuffle` is modeled nondeterministically: every place the source
  shuffles a list in place, the embedding takes an oracle function together
  with the hypothesis that the oracle returns a permutation of its input.
* Python code that raises is modeled with `Option`/`Except`
  (`None`/`error` marks the raise).
-/

set_option autoImplicit false

namespace VLNCE

noncomputable section

/-- `1e-5`, the additive epsilon of `get_advantages` (idealized as an exact
rational; the float literal is within 2⁻⁷⁸ of it). -/
def eps : ℝ := 1 / 100000

/-- `torch.clamp x lo hi` : apply the lower bound, then the upper bound. -/
def clamp (x lo hi : ℝ) : ℝ := min (max x lo) hi

/-- `Tensor.mean()` of a flat tensor: sum over number of elements
(`[]` gives `0/0 = 0` under real division). -/
def lmean (l : List ℝ) : ℝ := l.sum / (l.length : ℝ)

/-- Elementwise combination of three equal-length tensors. -/
def zipWith3 {α : Type} (f : α → α → α → α) : List α → List α → List α → List α
  | a :: as, b :: bs, c :: cs => f a b c :: zipWith3 f as bs cs
  | _, _, _ => []

/-- One minibatch as seen inside `WDDPPO.update`'s inner loop.  The fields are
the tensors of the 9-tuple yielded by the external
`rollouts.recurrent_generator` that the loss computation reads, together with
the outputs of the external `self.actor_critic.evaluate_actions` call on that
minibatch (`values`, `action_log_probs`, and the three-entry entropy dict).
`offset_action` is `actions_batch["offset"]` when the `"offset"` key is
present in the action batch, `none` otherwise. -/
structure MiniBatch where
  values : List ℝ
  action_log_probs : List ℝ
  entropy_pano : List ℝ
  entropy_offset : List ℝ
  entropy_distance : List ℝ
  value_preds_batch : List ℝ
  return_batch : List ℝ
  old_action_log_probs_batch : List ℝ
  adv_targ : List ℝ
  offset_action : Option (List ℝ)

/-- The trainer configuration: the `WDDPPO.__init__` keyword arguments plus the
inherited DD-PPO hyperparameters that `get_advantages`/`update` read.
`offset_to_continuous` is the external
`self.actor_critic.net.offset_to_continuous`. -/
structure PPOConfig where
  clip_param : ℝ
  value_loss_coef : ℝ
  entropy_coef : ℝ
  offset_regularize_coef : ℝ
  pano_entropy_coef : ℝ
  offset_entropy_coef : ℝ
  distance_entropy_coef : ℝ
  use_clipped_value_loss : Bool
  use_normalized_advantage : Bool
  ppo_epoch : ℕ
  num_mini_batch : ℕ
  offset_to_continuous : List ℝ → List ℝ

/-- `entropy_loss = (pano_entropy_coef * entropy["pano"] + offset_entropy_coef *
entropy["offset"] + distance_entropy_coef * entropy["distance"]).mean() *
self.entropy_coef` (source lines 84–88). -/
def entropy_loss (cfg : PPOConfig) (mb : MiniBatch) : ℝ :=
  lmean (zipWith3
    (fun p o d => cfg.pano_entropy_coef * p + cfg.offset_entropy_coef * o
      + cfg.distance_entropy_coef * d)
    mb.entropy_pano mb.entropy_offset mb.entropy_distance) * cfg.entropy_coef

/-- `torch.exp(action_log_probs - old_action_log_probs_batch)` (lines 90–92). -/
def probRatios (mb : MiniBatch) : List ℝ :=
  List.zipWith (fun a b => Real.exp (a - b))
    mb.action_log_probs mb.old_action_log_probs_batch

/-- `surr1 = ratio * adv_targ` (line 93). -/
def surr1 (mb : MiniBatch) : List ℝ :=
  List.zipWith (· * ·) (probRatios mb) mb.adv_targ

/-- `surr2 = clamp(ratio, 1-clip_param, 1+clip_param) * adv_targ` (94–99). -/
def surr2 (cfg : PPOConfig) (mb : MiniBatch) : List ℝ :=
  List.zipWith
    (fun r a => clamp r (1 - cfg.clip_param) (1 + cfg.clip_param) * a)
    (probRatios mb) mb.adv_targ

/-- `action_loss = -torch.min(surr1, surr2).mean()` (line 100). -/
def action_loss (cfg : PPOConfig) (mb : MiniBatch) : ℝ :=
  -(lmean (List.zipWith min (surr1 mb) (surr2 cfg mb)))

/-- `value_pred_clipped = value_preds_batch + (values -
value_preds_batch).clamp(-clip_param, clip_param)` (lines 103–105). -/
def value_pred_clipped (cfg : PPOConfig) (mb : MiniBatch) : List ℝ :=
  List.zipWith (fun vp v => vp + clamp (v - vp) (-cfg.clip_param) cfg.clip_param)
    mb.value_preds_batch mb.values

/-- `value_losses = (values - return_batch).pow(2)` (line 106). -/
def value_losses (mb : MiniBatch) : List ℝ :=
  List.zipWith (fun v r => (v - r) ^ 2) mb.values mb.return_batch

/-- `value_losses_clipped = (value_pred_clipped - return_batch).pow(2)`
(lines 107–109). -/
def value_losses_clipped (cfg : PPOConfig) (mb : MiniBatch) : List ℝ :=
  List.zipWith (fun vpc r => (vpc - r) ^ 2)
    (value_pred_clipped cfg mb) mb.return_batch

/-- `value_loss` (lines 102–116): clipped branch takes `0.5 *
torch.max(value_losses, value_losses_clipped).mean()`, the plain branch
`0.5 * (return_batch - values).pow(2).mean()`; both are then scaled by
`value_loss_coef`. -/
def value_loss (cfg : PPOConfig) (mb : MiniBatch) : ℝ :=
  (if cfg.use_clipped_value_loss then
      0.5 * lmean (List.zipWith max (value_losses mb) (value_losses_clipped cfg mb))
    else
      0.5 * lmean (List.zipWith (fun r v => (r - v) ^ 2)
        mb.return_batch mb.values)) * cfg.value_loss_coef

/-- `torch.nn.functional.l1_loss` with its default `reduction='mean'`:
the mean of the elementwise absolute differences. -/
def l1_loss (a b : List ℝ) : ℝ :=
  lmean (List.zipWith (fun x y => |x - y|) a b)

/-- `offset_loss` (lines 118–126): `0.0` when the action batch has no
`"offset"` entry, otherwise `offset_regularize_coef *
l1_loss(offset_to_continuous(actions_batch["offset"]),
torch.zeros_like(actions_batch["offset"]))`. -/
def offset_loss (cfg : PPOConfig) (mb : MiniBatch) : ℝ :=
  match mb.offset_action with
  | none => 0
  | some off =>
      cfg.offset_regularize_coef *
        l1_loss (cfg.offset_to_continuous off) (List.replicate off.length 0)

/-- `loss = value_loss + action_loss + offset_loss - entropy_loss` (line 129). -/
def total_loss (cfg : PPOConfig) (mb : MiniBatch) : ℝ :=
  value_loss cfg mb + action_loss cfg mb + offset_loss cfg mb - entropy_loss cfg mb

/-- The observable calls `update` makes around one gradient step:
`optimizer.zero_grad()`, `before_backward(loss)`, `loss.backward()`,
`after_backward(loss)`, `before_step()`, `optimizer.step()`, `after_step()`. -/
inductive UpdateEvent where
  | zeroGrad : UpdateEvent
  | beforeBackward : ℝ → UpdateEvent
  | backwardStep : ℝ → UpdateEvent
  | afterBackward : ℝ → UpdateEvent
  | beforeStep : UpdateEvent
  | optimizerStep : UpdateEvent
  | afterStep : UpdateEvent

/-- The event block emitted for one minibatch (source lines 128–137): the loss
is computed once and passed to the backward-phase calls. -/
def minibatchEvents (cfg : PPOConfig) (mb : MiniBatch) : List UpdateEvent :=
  let loss := total_loss cfg mb
  [UpdateEvent.zeroGrad, UpdateEvent.beforeBackward loss,
   UpdateEvent.backwardStep loss, UpdateEvent.afterBackward loss,
   UpdateEvent.beforeStep, UpdateEvent.optimizerStep, UpdateEvent.afterStep]

/-- Advantage tensor `rollouts.returns[:-1] - rollouts.value_preds[:-1]`
(line 36), rows = steps, columns = environments. -/
def raw_advantages (returns value_preds : List (List ℝ)) : List (List ℝ) :=
  List.zipWith (List.zipWith (· - ·)) returns.dropLast value_preds.dropLast

/-- `Tensor.mean()` over every element of a `(T, N)` tensor. -/
def tmean (t : List (List ℝ)) : ℝ := lmean t.flatten

/-- `Tensor.var()` with PyTorch's default Bessel correction: the sum of squared
deviations over `n - 1` elements (for a one-element tensor real division by
zero gives `0` where PyTorch gives NaN; no claim evaluates that case). -/
def tvarSample (t : List (List ℝ)) : ℝ :=
  ((t.flatten.map fun x => (x - tmean t) ^ 2).sum) / ((t.flatten.length : ℝ) - 1)

/-- `Tensor.std()` = square root of the Bessel-corrected variance. -/
def tstd (t : List (List ℝ)) : ℝ := Real.sqrt (tvarSample t)

/-- The rollout buffer as read by `update`/`get_advantages`: `returns` and
`value_preds` (length `T+1` each), and the external
`recurrent_generator(advantages, num_mini_batch)` minibatch generator.  Its
last argument indexes the epoch (the generator object is recreated each epoch
and may subsample differently each time). -/
structure Rollouts where
  returns : List (List ℝ)
  value_preds : List (List ℝ)
  recurrent_generator : List (List ℝ) → ℕ → ℕ → List MiniBatch

/-- `WDDPPO.get_advantages` (lines 35–40). -/
def get_advantages (cfg : PPOConfig) (r : Rollouts) : List (List ℝ) :=
  let advantages := raw_advantages r.returns r.value_preds
  if cfg.use_normalized_advantage = false then advantages
  else advantages.map (List.map fun x => (x - tmean advantages) / (tstd advantages + eps))

/-- All minibatches processed by one `update` call: `ppo_epoch` epochs, each
consuming one fresh `recurrent_generator` sequence (lines 52–57). -/
def epochSamples (cfg : PPOConfig) (r : Rollouts) : List MiniBatch :=
  ((List.range cfg.ppo_epoch).map
    (fun e => r.recurrent_generator (get_advantages cfg r) cfg.num_mini_batch e)).flatten

/-- The running state of `update`'s loop: the emitted call trace and the six
scalar accumulators `value_loss_epoch`, `action_loss_epoch`,
`entropy_loss_epoch`, `pano_entropy_epoch`, `offset_entropy_epoch`,
`distance_entropy_epoch` (lines 45–50 and 139–144). -/
structure UpdAcc where
  trace : List UpdateEvent
  vsum : ℝ
  asum : ℝ
  esum : ℝ
  psum : ℝ
  osum : ℝ
  dsum : ℝ

/-- One iteration of the inner loop of `update` (lines 57–144): emit the seven
calls around the gradient step and add the detached scalars to the
accumulators. -/
def updateStep (cfg : PPOConfig) (st : UpdAcc) (mb : MiniBatch) : UpdAcc :=
  { trace := st.trace ++ minibatchEvents cfg mb
    vsum := st.vsum + value_loss cfg mb
    asum := st.asum + action_loss cfg mb
    esum := st.esum + entropy_loss cfg mb
    psum := st.psum + lmean mb.entropy_pano
    osum := st.osum + lmean mb.entropy_offset
    dsum := st.dsum + lmean mb.entropy_distance }

/-- Python exceptions surfaced by the embedded code. -/
inductive PyError where
  | zeroDivision : PyError
deriving DecidableEq

/-- `WDDPPO.update` (lines 42–154): run the epoch/minibatch loop, then divide
each accumulator by `num_updates = ppo_epoch * num_mini_batch` (lines
146–154).  The first component is the trace of optimizer/hook calls the loop
performed; the second is the returned six-tuple, or `ZeroDivisionError` when
`num_updates` is zero (Python raises on float division by integer `0`).
`CWDDPPO.update` (lines 295–411) differs only by injecting the
negative-feature batch into the observations consumed by the external
`evaluate_actions`, which the `MiniBatch` abstraction already absorbs; its
loss composition, call order and accounting are line-identical. -/
def update (cfg : PPOConfig) (r : Rollouts) :
    List UpdateEvent × Except PyError (ℝ × ℝ × ℝ × ℝ × ℝ × ℝ) :=
  let acc := (epochSamples cfg r).foldl (updateStep cfg)
    { trace := [], vsum := 0, asum := 0, esum := 0, psum := 0, osum := 0, dsum := 0 }
  let num_updates : ℕ := cfg.ppo_epoch * cfg.num_mini_batch
  (acc.trace,
   if num_updates = 0 then Except.error PyError.zeroDivision
   else Except.ok (acc.vsum / (num_updates : ℝ), acc.asum / (num_updates : ℝ),
     acc.esum / (num_updates : ℝ), acc.psum / (num_updates : ℝ),
     acc.osum / (num_updates : ℝ), acc.dsum / (num_updates : ℝ)))

/-- The trace of optimizer and hook calls of one `update` call. -/
def updateTrace (cfg : PPOConfig) (r : Rollouts) : List UpdateEvent :=
  (update cfg r).1

end

/-- The blocks `[lst[i : i + block_size] for i in range(0, len(lst),
block_size)]` of `_block_shuffle` (line 170), with an explicit fuel bound on
the number of loop iterations so that the recursion is structural; `toBlocks`
below instantiates the fuel with `lst.length`, which is always enough when
`0 < block_size`.  (Python `range` with step `0` raises `ValueError`; no claim
uses a zero block size.) -/
def toBlocksAux {α : Type} : ℕ → ℕ → List α → List (List α)
  | 0, _, _ => []
  | _ + 1, _, [] => []
  | fuel + 1, bs, a :: l => ((a :: l).take bs) :: toBlocksAux fuel bs ((a :: l).drop bs)

/-- The contiguous blocks of size `block_size` of a list, in order. -/
def toBlocks {α : Type} (bs : ℕ) (l : List α) : List (List α) :=
  toBlocksAux l.length bs l

/-- `_block_shuffle(lst, block_size)` (lines 169–173): cut `lst` into
contiguous blocks, shuffle the block list in place, and concatenate.
`shuffle` is the oracle standing for `random.shuffle`; theorems assume it
returns a permutation of its input. -/
def block_shuffle {α : Type} (shuffle : List (List α) → List (List α))
    (lst : List α) (block_size : ℕ) : List α :=
  (shuffle (toBlocks block_size lst)).flatten

/-- `list.pop()` : Python's pop from the tail.  `none` models the `IndexError`
raised on an empty list. -/
def popLast {α : Type} (l : List α) : Option (α × List α) :=
  match l.reverse with
  | [] => none
  | a :: r => some (a, r.reverse)

/-- The static data of a `FramesDataset` (from `__init__`, lines 178–197):
`batch_size`, `preload_size` (`= batch_size * 10` in the source), the entry
count `length` reported by the LMDB store, and the store itself.  `store i`
is the list of `(rgb, depth)` pairs that record `i` decodes to: the source
fetches `txn.get(str(i))`, msgpack-decodes it, and flattens the leading two
feature axes into one pose axis (lines 218–231); all of that is external
I/O, so a record is modeled directly by its resulting pair list.  `P` is the
type of one `(rgb, depth)` pair. -/
structure DConfig (P : Type) where
  batch_size : ℕ
  preload_size : ℕ
  length : ℕ
  store : ℕ → List P

/-- The mutable state of one dataset iterator: `self.start`, `self.end`,
`self.load_ordering`, `self._preload`. -/
structure DState (P : Type) where
  dstart : ℕ
  dend : ℕ
  load_ordering : List ℕ
  preload : List P

/-- The three `random.shuffle` call sites reachable from one `_load_next`
call: `regen` shuffles the block list when the load ordering is regenerated
(line 203), `sortSh` shuffles `sorted_ordering` (line 241), `blockSh`
shuffles the block list inside `_block_shuffle(sorted_ordering, batch_size)`
(line 243). -/
structure DOracles where
  regen : List (List ℕ) → List (List ℕ)
  sortSh : List ℕ → List ℕ
  blockSh : List (List ℕ) → List (List ℕ)

/-- The `while len(new_preload) < self.preload_size` loop of `_load_next`
(lines 215–231): pop a record index from the tail of the load ordering,
decode it, and append its pairs, until `preload_size` pairs are accumulated
or the ordering is exhausted.  Returns (accumulated pairs, remaining
ordering, indices fetched in order).  `fuel` bounds the iterations
structurally; every call supplies `queue.length`, which is enough because
each iteration pops one element. -/
def refillAux {P : Type} (cfg : DConfig P) :
    ℕ → List ℕ → List P → List P × List ℕ × List ℕ
  | 0, queue, acc => (acc, queue, [])
  | fuel + 1, queue, acc =>
    if acc.length < cfg.preload_size then
      match popLast queue with
      | none => (acc, queue, [])
      | some (i, rest) =>
          let r := refillAux cfg fuel rest (acc ++ cfg.store i)
          (r.1, r.2.1, i :: r.2.2)
    else (acc, queue, [])

/-- The refill loop entered with the full queue as fuel. -/
def refillLoop {P : Type} (cfg : DConfig P) (queue : List ℕ) (acc : List P) :
    List P × List ℕ × List ℕ :=
  refillAux cfg queue.length queue acc

/-- The refill half of `FramesDataset._load_next` (lines 200–244): when the
preload buffer is below `batch_size`, regenerate the load ordering as
`reversed(_block_shuffle(range(start, end), preload_size))` if it is empty
(lines 201–204), run the refill loop (lines 206–231), randomly permute the
accumulated pairs (`sorted_ordering`, lines 240–241), block-shuffle them with
block size `batch_size` and append them to `_preload` (lines 243–244);
otherwise leave everything unchanged.  Returns (the preload buffer after the
refill, the remaining load ordering, the record indices fetched). -/
def refillPhase {P : Type} (cfg : DConfig P) (ork : DOracles) (s : DState P) :
    List P × List ℕ × List ℕ :=
  if s.preload.length < cfg.batch_size then
    let queue0 :=
      if s.load_ordering.length = 0 then
        (block_shuffle ork.regen (List.range' s.dstart (s.dend - s.dstart))
          cfg.preload_size).reverse
      else s.load_ordering
    let r := refillLoop cfg queue0 []
    let new_preload := r.1
    let sorted_ordering := ork.sortSh (List.range new_preload.length)
    let appended := (block_shuffle ork.blockSh sorted_ordering
      cfg.batch_size).filterMap (fun idx => new_preload.get? idx)
    (s.preload ++ appended, r.2.1, r.2.2)
  else (s.preload, s.load_ordering, [])

/-- `FramesDataset._load_next` (lines 199–246): the refill phase above
followed by `return self._preload.pop()` (line 246); `none` models the
`IndexError` Python raises when the buffer is still empty.  Returns (popped
item, new state, record indices fetched by this call). -/
def load_next {P : Type} (cfg : DConfig P) (ork : DOracles) (s : DState P) :
    Option P × DState P × List ℕ :=
  let ph := refillPhase cfg ork s
  match popLast ph.1 with
  | none => (none, { s with load_ordering := ph.2.1, preload := [] }, ph.2.2)
  | some (p, rest) =>
      (some p, { s with load_ordering := ph.2.1, preload := rest }, ph.2.2)

/-- `int(np.ceil(length / num_workers))` (line 262), as an exact natural
ceiling division. -/
def per_worker (length num_workers : ℕ) : ℕ :=
  (length + num_workers - 1) / num_workers

/-- `FramesDataset.__iter__` (lines 256–273): compute the worker's shard
`[start, end)` and build the initial load ordering.  `workerId = 0`,
`num_workers = 1` also covers the `worker_info is None` branch.  `regen` is
the oracle for the `random.shuffle` inside the initial `_block_shuffle`
(line 269). -/
def dsInit {P : Type} (cfg : DConfig P) (workerId num_workers : ℕ)
    (regen : List (List ℕ) → List (List ℕ)) : DState P :=
  let pw := per_worker cfg.length num_workers
  let s := pw * workerId
  let e := min (s + pw) cfg.length
  { dstart := s, dend := e,
    load_ordering :=
      (block_shuffle regen (List.range' s (e - s)) cfg.preload_size).reverse,
    preload := [] }

/-- `n` consecutive `__next__` calls (each `__next__`, lines 248–254, returns
`self._load_next()` after tensor conversion of the two arrays, which does not
change the pair).  Call `k` uses oracle triple `orks k`.  Returns (the `n`
yields in order, final state, all record indices fetched in order). -/
def dsRun {P : Type} (cfg : DConfig P) (orks : ℕ → DOracles) :
    ℕ → DState P → List (Option P) × DState P × List ℕ
  | 0, s => ([], s, [])
  | n + 1, s =>
      let r := dsRun cfg orks n s
      let step := load_next cfg (orks n) r.2.1
      (r.1 ++ [step.1], step.2.1, r.2.2 ++ step.2.2)

/-- The index range owned by worker `w` (lines 262–265):
`[per_worker * w, min(per_worker * w + per_worker, length))`. -/
def shard (length num_workers w : ℕ) : Finset ℕ :=
  Finset.Ico (per_worker length num_workers * w)
    (min (per_worker length num_workers * (w + 1)) length)

/-- Identity shuffle oracles (one particular resolution of the randomness). -/
def orksId : ℕ → DOracles :=
  fun _ => { regen := id, sortSh := id, blockSh := id }

/-- The C8 scenario: a 23-record store (each record decoding to one pair),
`preload_size = 30` and hence `batch_size = 3` (`preload_size = 10 ×
batch_size` as in `__init__`), one worker. -/
def cfg23 : DConfig Unit :=
  { batch_size := 3, preload_size := 30, length := 23, store := fun _ => [()] }

/-- A store with no entries: the single worker's shard `[0, 0)` is empty. -/
def cfgEmptyShard : DConfig Unit :=
  { batch_size := 1, preload_size := 10, length := 0, store := fun _ => [()] }

/-- A one-record store. -/
def cfgOneRecord : DConfig Unit :=
  { batch_size := 1, preload_size := 10, length := 1, store := fun _ => [()] }

noncomputable section

/-- The advantage standardization exactly as the spec words it (§4.4):
population mean and POPULATION standard deviation (divisor `n`) over the
entire tensor jointly, with additive `1e-5`.  This is the spec-side
definition for the refinement claim C1; the code side is `get_advantages`. -/
def specStandardizePop (t : List (List ℝ)) : List (List ℝ) :=
  let flat := t.flatten
  let m := lmean flat
  let sd := Real.sqrt ((flat.map fun x => (x - m) ^ 2).sum / (flat.length : ℝ))
  t.map (List.map fun x => (x - m) / (sd + eps))

/-- The same standardization with the Bessel-corrected SAMPLE standard
deviation (divisor `n - 1`), which is what `Tensor.std()` actually computes:
the amended spec-side definition for C1. -/
def specStandardizeSample (t : List (List ℝ)) : List (List ℝ) :=
  let flat := t.flatten
  let m := lmean flat
  let sd := Real.sqrt ((flat.map fun x => (x - m) ^ 2).sum / ((flat.length : ℝ) - 1))
  t.map (List.map fun x => (x - m) / (sd + eps))

/-- A baseline concrete configuration (typical PPO hyperparameters) used by
the concrete instances below. -/
def cfgBase : PPOConfig :=
  { clip_param := 1 / 5, value_loss_coef := 1 / 2, entropy_coef := 1 / 100,
    offset_regularize_coef := 0, pano_entropy_coef := 1, offset_entropy_coef := 1,
    distance_entropy_coef := 1, use_clipped_value_loss := true,
    use_normalized_advantage := false, ppo_epoch := 1, num_mini_batch := 2,
    offset_to_continuous := fun l => l }

/-- A rollout buffer (`T = 2`, `N = 1`) whose advantage tensor is `[[0],[2]]`:
sample and population standard deviations differ on it (`√2` vs `1`). -/
def rolloutsC1 : Rollouts :=
  { returns := [[0], [2], [5]], value_preds := [[0], [0], [0]],
    recurrent_generator := fun _ _ _ => [] }

/-- The C5 scenario: `T = 5`, `N = 2`, returns constant `10`, value
predictions constant `8`. -/
def rolloutsC5 : Rollouts :=
  { returns := [[10, 10], [10, 10], [10, 10], [10, 10], [10, 10], [10, 10]],
    value_preds := [[8, 8], [8, 8], [8, 8], [8, 8], [8, 8], [8, 8]],
    recurrent_generator := fun _ _ _ => [] }

/-- The L1 distance between two tensors, `‖a - b‖₁ = Σ|aᵢ - bᵢ|`, exactly as
the claim's words for C3 say ("the L1 distance between the network's
continuous decoding of the offset action and zero"). -/
def l1_distance (a b : List ℝ) : ℝ :=
  (List.zipWith (fun x y => |x - y|) a b).sum

/-- A minibatch whose tensors are all empty and whose action batch has no
`"offset"` key. -/
def mbEmpty : MiniBatch :=
  { values := [], action_log_probs := [], entropy_pano := [], entropy_offset := [],
    entropy_distance := [], value_preds_batch := [], return_batch := [],
    old_action_log_probs_batch := [], adv_targ := [], offset_action := none }

/-- A minibatch whose action batch has an `"offset"` entry with two
components, each decoding (under the identity decoder of `cfgC3`) to `1`. -/
def mbWithOffset : MiniBatch := { mbEmpty with offset_action := some [1, 1] }

/-- `cfgBase` with a unit offset regularization coefficient (the decoder is
already the identity there). -/
def cfgC3 : PPOConfig := { cfgBase with offset_regularize_coef := 1 }

/-- A minibatch on which the clipped value loss is pointwise SMALLER than the
unclipped one: old prediction `0`, new value `10`, return `1/5`. -/
def mbC4 : MiniBatch :=
  { mbEmpty with values := [10], value_preds_batch := [0], return_batch := [1 / 5] }

/-- A minibatch with `value_preds_batch == values` (no update yet). -/
def mbC4w : MiniBatch :=
  { mbEmpty with values := [1], value_preds_batch := [1], return_batch := [0] }

/-- A rollout buffer whose generator yields `n` copies of the empty minibatch,
honouring the generator's length contract. -/
def rolloutsGen : Rollouts :=
  { returns := [], value_preds := [],
    recurrent_generator := fun _ n _ => List.replicate n mbEmpty }

/-- `cfgBase` with `ppo_epoch = 0` (so `num_updates = 0`). -/
def cfgC10 : PPOConfig := { cfgBase with ppo_epoch := 0 }

end

/-! ### Lemmas about `toBlocks` and `block_shuffle` -/

theorem toBlocksAux_flatten {α : Type} {bs : ℕ} (hbs : 0 < bs) :
    ∀ (fuel : ℕ) (l : List α), l.length ≤ fuel →
      (toBlocksAux fuel bs l).flatten = l := by
  intro fuel
  induction fuel with
  | zero =>
      intro l h
      rw [List.length_eq_zero.mp (Nat.le_zero.mp h)]
      rfl
  | succ n ih =>
      intro l h
      match l with
      | [] => rfl
      | a :: l =>
          have hlen : l.length + 1 ≤ n + 1 := by simpa using h
          have hd : ((a :: l).drop bs).length ≤ n := by
            simp only [List.length_drop, List.length_cons]
            omega
          simp only [toBlocksAux, List.flatten_cons]
          rw [ih _ hd]
          exact List.take_append_drop bs (a :: l)

theorem toBlocks_flatten {α : Type} {bs : ℕ} (hbs : 0 < bs) (l : List α) :
    (toBlocks bs l).flatten = l :=
  toBlocksAux_flatten hbs l.length l le_rfl

theorem block_shuffle_perm {α : Type} {shuffle : List (List α) → List (List α)}
    {lst : List α} {bs : ℕ} (hbs : 0 < bs)
    (hsh : List.Perm (shuffle (toBlocks bs lst)) (toBlocks bs lst)) :
    List.Perm (block_shuffle shuffle lst bs) lst := by
  have h := hsh.flatten
  rwa [toBlocks_flatten hbs] at h

theorem toBlocksAux_nil {α : Type} (fuel bs : ℕ) :
    toBlocksAux fuel bs ([] : List α) = [] := by
  cases fuel <;> rfl

theorem toBlocks_one {α : Type} (l : List α) :
    toBlocks 1 l = l.map (fun a => [a]) := by
  suffices h : ∀ (fuel : ℕ) (l : List α), l.length ≤ fuel →
      toBlocksAux fuel 1 l = l.map (fun a => [a]) from
    h l.length l le_rfl
  intro fuel
  induction fuel with
  | zero =>
      intro l h
      rw [List.length_eq_zero.mp (Nat.le_zero.mp h)]
      rfl
  | succ n ih =>
      intro l h
      match l with
      | [] => rfl
      | a :: l =>
          simp only [toBlocksAux, List.take_succ_cons, List.take_zero,
            List.drop_succ_cons, List.drop_zero, List.map_cons]
          rw [ih l (by simp at h; omega)]

theorem flatten_map_singleton {α : Type} (l : List α) :
    (l.map (fun a => [a])).flatten = l := by
  induction l with
  | nil => rfl
  | cons a l ih => simp [ih]

theorem toBlocks_of_length_le {α : Type} {bs : ℕ} {l : List α}
    (hne : l ≠ []) (hlen : l.length ≤ bs) : toBlocks bs l = [l] := by
  match l with
  | [] => exact absurd rfl hne
  | a :: l =>
      show toBlocksAux (l.length + 1) bs (a :: l) = [a :: l]
      simp only [toBlocksAux]
      rw [List.take_of_length_le hlen, List.drop_eq_nil_of_le hlen, toBlocksAux_nil]

/-- C6: `_block_shuffle` is a permutation: whenever the in-place shuffle
returns a permutation of the block list, the output is a permutation of the
input (any input, any positive block size); with `block_size = 1` the blocks
are exactly the singletons — so shuffling blocks is shuffling elements, and
every ordering of the elements is the output of some permutation-respecting
shuffle; with `block_size ≥ len(input)` there is a single block and the
output is exactly the input list. -/
theorem C6_block_shuffle_permutation :
    (∀ (α : Type) (shuffle : List (List α) → List (List α)) (lst : List α) (bs : ℕ),
        0 < bs → List.Perm (shuffle (toBlocks bs lst)) (toBlocks bs lst) →
        List.Perm (block_shuffle shuffle lst bs) lst)
    ∧ (∀ (α : Type) (lst : List α),
        toBlocks 1 lst = lst.map (fun a => [a])
        ∧ ∀ out : List α, List.Perm out lst →
            ∃ shuffle : List (List α) → List (List α),
              List.Perm (shuffle (toBlocks 1 lst)) (toBlocks 1 lst)
              ∧ block_shuffle shuffle lst 1 = out)
    ∧ (∀ (α : Type) (shuffle : List (List α) → List (List α)) (lst : List α) (bs : ℕ),
        lst.length ≤ bs → 0 < bs →
        List.Perm (shuffle (toBlocks bs lst)) (toBlocks bs lst) →
        block_shuffle shuffle lst bs = lst) := by
  refine ⟨fun α shuffle lst bs hbs hsh => block_shuffle_perm hbs hsh,
    fun α lst => ⟨toBlocks_one lst, fun out hout => ?_⟩,
    fun α shuffle lst bs hlen hbs hsh => ?_⟩
  · refine ⟨fun _ => out.map (fun a => [a]), ?_, ?_⟩
    · rw [toBlocks_one]
      exact hout.map _
    · exact flatten_map_singleton out
  · match lst, hlen with
    | [], _ =>
        show (shuffle (toBlocks bs [])).flatten = []
        rw [List.perm_nil.mp hsh]
        rfl
    | a :: l, hlen =>
        have hb := toBlocks_of_length_le (List.cons_ne_nil a l) hlen
        show (shuffle (toBlocks bs (a :: l))).flatten = a :: l
        rw [hb] at hsh ⊢
        rw [List.perm_singleton.mp hsh]
        simp

/-- Witness for C6: a concrete permutation-respecting shuffle (reversal) of a
concrete list with block size 2. -/
theorem C6_block_shuffle_permutation_witness :
    List.Perm (block_shuffle List.reverse [1, 2, 3] 2) [1, 2, 3] :=
  C6_block_shuffle_permutation.1 ℕ List.reverse [1, 2, 3] 2 (by decide) (by decide)

/-! ### Lemmas about the shard partition -/

theorem le_per_worker_mul (L W : ℕ) (hW : 0 < W) : L ≤ per_worker L W * W := by
  unfold per_worker
  cases L with
  | zero => simp
  | succ l =>
      have h1 : l + 1 + W - 1 = l + W := by omega
      rw [h1, Nat.add_div_right _ hW]
      have h2 := Nat.div_add_mod l W
      have h3 := Nat.mod_lt l hW
      have h4 : (l / W + 1) * W = W * (l / W) + W := by ring
      omega

theorem per_worker_pos {L W : ℕ} (hW : 0 < W) (hL : 0 < L) :
    0 < per_worker L W := by
  by_contra h
  push_neg at h
  have h0 : per_worker L W = 0 := Nat.le_zero.mp h
  have h1 := le_per_worker_mul L W hW
  rw [h0, Nat.zero_mul] at h1
  omega

/-- C7: for every entry count and every positive worker count, the per-worker
ranges `[w*ceil(L/W), min((w+1)*ceil(L/W), L))` of `FramesDataset.__iter__`
cover `[0, L)` exactly and are pairwise disjoint, whether or not `W` divides
`L`. -/
theorem C7_shard_partition (L W : ℕ) (hW : 0 < W) :
    (Finset.range W).biUnion (fun w => shard L W w) = Finset.range L
    ∧ ∀ w₁ w₂ : ℕ, w₁ ≠ w₂ → Disjoint (shard L W w₁) (shard L W w₂) := by
  have key : ∀ a b : ℕ, a < b → Disjoint (shard L W a) (shard L W b) := by
    intro a b hab
    rw [Finset.disjoint_left]
    intro i hia hib
    simp only [shard, Finset.mem_Ico, lt_min_iff] at hia hib
    have hmono : per_worker L W * (a + 1) ≤ per_worker L W * b :=
      Nat.mul_le_mul_left _ hab
    omega
  constructor
  · ext i
    simp only [Finset.mem_biUnion, Finset.mem_range, shard, Finset.mem_Ico,
      lt_min_iff]
    constructor
    · rintro ⟨w, -, -, -, h⟩
      exact h
    · intro hi
      have hpw : 0 < per_worker L W := per_worker_pos hW (Nat.zero_lt_of_lt hi)
      refine ⟨i / per_worker L W, ?_, ?_, ?_, hi⟩
      · by_contra hge
        push_neg at hge
        have h1 : per_worker L W * W ≤ per_worker L W * (i / per_worker L W) :=
          Nat.mul_le_mul_left _ hge
        have h2 : per_worker L W * (i / per_worker L W) ≤ i := Nat.mul_div_le i _
        have h3 := le_per_worker_mul L W hW
        omega
      · exact Nat.mul_div_le i _
      · have h2 := Nat.div_add_mod i (per_worker L W)
        have h3 := Nat.mod_lt i hpw
        have h4 : per_worker L W * (i / per_worker L W + 1)
            = per_worker L W * (i / per_worker L W) + per_worker L W := by ring
        omega
  · intro w₁ w₂ hne
    rcases Nat.lt_trichotomy w₁ w₂ with h | h | h
    · exact key w₁ w₂ h
    · exact absurd h hne
    · exact (key w₂ w₁ h).symm

/-- Witness for C7: ten entries split across three workers (non-dividing). -/
theorem C7_shard_partition_witness :
    (Finset.range 3).biUnion (fun w => shard 10 3 w) = Finset.range 10
    ∧ ∀ w₁ w₂ : ℕ, w₁ ≠ w₂ → Disjoint (shard 10 3 w₁) (shard 10 3 w₂) :=
  C7_shard_partition 10 3 (by decide)

/-! ### C1 / C5 : the advantage estimator -/

theorem raw_advantages_C1 :
    raw_advantages rolloutsC1.returns rolloutsC1.value_preds = [[0], [2]] := by
  norm_num [raw_advantages, rolloutsC1]

theorem sqrt_two_ne_one : Real.sqrt 2 ≠ 1 := by
  intro h
  have h2 : Real.sqrt 2 ^ 2 = 2 := Real.sq_sqrt (by norm_num)
  rw [h] at h2
  norm_num at h2

/-- C1 counterexample: on the advantage tensor `[[0],[2]]`, `get_advantages`
normalizes with the sample standard deviation `√2`, while the claim's
population standard deviation is `1`; the outputs differ. -/
theorem C1_population_std_counterexample :
    get_advantages { cfgBase with use_normalized_advantage := true } rolloutsC1
      ≠ specStandardizePop (raw_advantages rolloutsC1.returns rolloutsC1.value_preds) := by
  have heps : (0 : ℝ) < eps := by rw [eps]; norm_num
  have hsqrt : (0 : ℝ) ≤ Real.sqrt 2 := Real.sqrt_nonneg 2
  have hm : tmean ([[0], [2]] : List (List ℝ)) = 1 := by
    norm_num [tmean, lmean]
  have hv : tvarSample ([[0], [2]] : List (List ℝ)) = 2 := by
    norm_num [tvarSample, hm]
  have hL : get_advantages { cfgBase with use_normalized_advantage := true } rolloutsC1
      = [[(0 - 1) / (Real.sqrt 2 + eps)], [(2 - 1) / (Real.sqrt 2 + eps)]] := by
    rw [get_advantages]
    norm_num [raw_advantages_C1, cfgBase, tstd, hm, hv]
  have hR : specStandardizePop (raw_advantages rolloutsC1.returns rolloutsC1.value_preds)
      = [[(0 - 1) / (1 + eps)], [(2 - 1) / (1 + eps)]] := by
    rw [raw_advantages_C1, specStandardizePop]
    norm_num [lmean, Real.sqrt_one]
  rw [hL, hR]
  intro h
  have hd : (0 - 1 : ℝ) / (Real.sqrt 2 + eps) = (0 - 1) / (1 + eps) := by
    have := congrArg (fun l => l.head?) h
    simpa using this
  have hne1 : Real.sqrt 2 + eps ≠ 0 := by positivity
  have hne2 : (1 : ℝ) + eps ≠ 0 := by positivity
  have := (div_eq_div_iff hne1 hne2).mp hd
  have h2 : Real.sqrt 2 = 1 := by linarith
  exact sqrt_two_ne_one h2

/-- C1 (amended): `get_advantages` returns `returns[:-1] - value_preds[:-1]`
unchanged when normalization is disabled; when enabled it standardizes over
the entire tensor (all steps and environments jointly) using the population
mean and the Bessel-corrected SAMPLE standard deviation (divisor `n - 1`,
PyTorch's `Tensor.std()` default) — not the population standard deviation —
with an additive `1e-5` in the denominator. -/
theorem C1_advantage_standardization_amended (cfg : PPOConfig) (r : Rollouts) :
    get_advantages cfg r =
      if cfg.use_normalized_advantage
      then specStandardizeSample (raw_advantages r.returns r.value_preds)
      else raw_advantages r.returns r.value_preds := by
  cases hn : cfg.use_normalized_advantage
  · simp [get_advantages, hn]
  · simp [get_advantages, hn, specStandardizeSample, tstd, tvarSample, tmean]

/-! ### C3 / C4 : loss terms of the update loop -/

theorem zipWith_replicate_same {α β γ : Type} (f : α → β → γ) (c : β) :
    ∀ l : List α, List.zipWith f l (List.replicate l.length c)
      = l.map (fun x => f x c)
  | [] => rfl
  | a :: l => by
      simp only [List.length_cons, List.replicate_succ, List.zipWith_cons_cons,
        List.map_cons, List.cons.injEq, true_and]
      exact zipWith_replicate_same f c l

theorem zipWith_self {α β : Type} (f : α → α → β) :
    ∀ l : List α, List.zipWith f l l = l.map (fun a => f a a)
  | [] => rfl
  | a :: l => by
      simp only [List.zipWith_cons_cons, List.map_cons, List.cons.injEq, true_and]
      exact zipWith_self f l

/-- C3 counterexample: with a unit coefficient and the identity decoder, an
offset batch with two unit components gives an offset term of `1` (PyTorch
`l1_loss` takes the MEAN absolute difference), while the claim's L1 distance
is `2`. -/
theorem C3_l1_distance_counterexample :
    offset_loss cfgC3 mbWithOffset
      ≠ cfgC3.offset_regularize_coef *
          l1_distance (cfgC3.offset_to_continuous [1, 1]) (List.replicate 2 (0 : ℝ)) := by
  norm_num [offset_loss, mbWithOffset, mbEmpty, cfgC3, cfgBase, l1_loss, lmean,
    l1_distance, List.replicate]

/-- C3 (amended): when the action batch has no `"offset"` entry the offset
term is exactly `0` and the total loss is exactly `value_loss + action_loss -
entropy_loss`; when it is present (and the continuous decoding preserves the
entry count) the term equals `offset_regularize_coef` times the MEAN absolute
value of the continuous decoding of the offset action (PyTorch `l1_loss`
against zero with its default mean reduction) — `1/n` times the claim's L1
distance. -/
theorem C3_offset_regularization_amended (cfg : PPOConfig) (mb : MiniBatch) :
    (mb.offset_action = none →
      offset_loss cfg mb = 0
      ∧ total_loss cfg mb
          = value_loss cfg mb + action_loss cfg mb - entropy_loss cfg mb)
    ∧ (∀ off : List ℝ, mb.offset_action = some off →
        (cfg.offset_to_continuous off).length = off.length →
        offset_loss cfg mb
          = cfg.offset_regularize_coef *
              lmean ((cfg.offset_to_continuous off).map (fun x => |x|))) := by
  constructor
  · intro h
    have h0 : offset_loss cfg mb = 0 := by rw [offset_loss, h]
    refine ⟨h0, ?_⟩
    rw [total_loss, h0]
    ring
  · intro off hoff hlen
    rw [offset_loss, hoff]
    show cfg.offset_regularize_coef
        * l1_loss (cfg.offset_to_continuous off) (List.replicate off.length 0) = _
    rw [l1_loss, ← hlen, zipWith_replicate_same]
    simp only [sub_zero]

/-- Witness for C3 (amended), absent-key side: on a concrete minibatch with no
`"offset"` entry the term is zero and the loss has no extra summand. -/
theorem C3_offset_regularization_witness :
    offset_loss cfgBase mbEmpty = 0
    ∧ total_loss cfgBase mbEmpty
        = value_loss cfgBase mbEmpty + action_loss cfgBase mbEmpty
            - entropy_loss cfgBase mbEmpty :=
  (C3_offset_regularization_amended cfgBase mbEmpty).1 rfl

/-- C4: in the clipped-value-loss branch, when `value_preds_batch == values`
(and the clip parameter is nonnegative, as PPO requires) the clipped and
unclipped value losses are identical — both as pointwise tensors and as the
final scalars; and the pointwise inequality `clipped ≥ unclipped` does NOT
hold in general (second conjunct exhibits a minibatch violating it). -/
theorem C4_clipped_value_loss :
    (∀ (cfg : PPOConfig) (mb : MiniBatch), 0 ≤ cfg.clip_param →
      mb.value_preds_batch = mb.values →
      value_losses_clipped cfg mb = value_losses mb
      ∧ value_loss cfg mb = value_loss { cfg with use_clipped_value_loss := false } mb)
    ∧ (∃ (cfg : PPOConfig) (mb : MiniBatch),
        ¬ List.Forall₂ (· ≤ ·) (value_losses mb) (value_losses_clipped cfg mb)) := by
  constructor
  · intro cfg mb hc heq
    have hclamp0 : clamp 0 (-cfg.clip_param) cfg.clip_param = 0 := by
      rw [clamp, max_eq_left (neg_nonpos.mpr hc), min_eq_left hc]
    have hvpc : value_pred_clipped cfg mb = mb.values := by
      rw [value_pred_clipped, heq, zipWith_self]
      have hpt : ∀ v ∈ mb.values,
          (fun v => v + clamp (v - v) (-cfg.clip_param) cfg.clip_param) v
            = (fun v => v) v := by
        intro v _
        simp only [sub_self, hclamp0, add_zero]
      rw [List.map_congr_left hpt, List.map_id']
    have hcl : value_losses_clipped cfg mb = value_losses mb := by
      rw [value_losses_clipped, hvpc]
      rfl
    refine ⟨hcl, ?_⟩
    have hmax : List.zipWith max (value_losses mb) (value_losses_clipped cfg mb)
        = value_losses mb := by
      rw [hcl, zipWith_self]
      have hpt : ∀ v ∈ value_losses mb, (fun a => max a a) v = (fun a => a) v := by
        intro v _
        exact max_self v
      rw [List.map_congr_left hpt, List.map_id']
    have hswap : value_losses mb
        = List.zipWith (fun r v => (r - v) ^ 2) mb.return_batch mb.values := by
      rw [value_losses, List.zipWith_comm (fun v r => (v - r) ^ 2)]
      congr 1
      funext r v
      ring
    have hR : value_loss { cfg with use_clipped_value_loss := false } mb
        = 0.5 * lmean (List.zipWith (fun r v => (r - v) ^ 2)
            mb.return_batch mb.values) * cfg.value_loss_coef := by
      simp [value_loss]
    rw [hR]
    cases hb : cfg.use_clipped_value_loss
    · simp [value_loss, hb]
    · rw [value_loss]
      simp only [hb, if_true]
      rw [hmax, hswap]
  · refine ⟨cfgBase, mbC4, ?_⟩
    intro h
    have h1 : value_losses mbC4 = [(10 - 1 / 5 : ℝ) ^ 2] := by
      norm_num [value_losses, mbC4, mbEmpty]
    have h2 : value_losses_clipped cfgBase mbC4 = [0] := by
      norm_num [value_losses_clipped, value_pred_clipped, mbC4, mbEmpty, cfgBase,
        clamp, max_def, min_def]
    rw [h1, h2] at h
    cases h with
    | cons hle _ => norm_num at hle

/-- Witness for C4: a concrete minibatch with `value_preds_batch == values`. -/
theorem C4_clipped_value_loss_witness :
    value_losses_clipped cfgBase mbC4w = value_losses mbC4w
    ∧ value_loss cfgBase mbC4w
        = value_loss { cfgBase with use_clipped_value_loss := false } mbC4w :=
  C4_clipped_value_loss.1 cfgBase mbC4w (by norm_num [cfgBase]) rfl

/-! ### C2 / C10 : the update loop -/

theorem updateFold_trace (cfg : PPOConfig) :
    ∀ (samples : List MiniBatch) (st : UpdAcc),
      (samples.foldl (updateStep cfg) st).trace
        = st.trace ++ (samples.map (minibatchEvents cfg)).flatten := by
  intro samples
  induction samples with
  | nil => intro st; simp
  | cons mb rest ih =>
      intro st
      rw [List.foldl_cons, ih]
      show (st.trace ++ minibatchEvents cfg mb) ++ _ = _
      simp [List.append_assoc]

theorem updateFold_proj (cfg : PPOConfig) (proj : UpdAcc → ℝ) (f : MiniBatch → ℝ)
    (hstep : ∀ st mb, proj (updateStep cfg st mb) = proj st + f mb) :
    ∀ (samples : List MiniBatch) (st : UpdAcc),
      proj (samples.foldl (updateStep cfg) st) = proj st + (samples.map f).sum := by
  intro samples
  induction samples with
  | nil => intro st; simp
  | cons mb rest ih =>
      intro st
      rw [List.foldl_cons, ih, hstep]
      simp [add_assoc]

theorem sum_map_const_nat {α : Type} (a : ℕ) :
    ∀ l : List α, (l.map (fun _ => a)).sum = a * l.length
  | [] => by simp
  | _ :: l => by
      simp only [List.map_cons, List.sum_cons, sum_map_const_nat a l,
        List.length_cons]
      ring

/-- One `update` call processes `ppo_epoch` generator passes of
`num_mini_batch` minibatches each. -/
theorem epochSamples_length (cfg : PPOConfig) (r : Rollouts)
    (hgen : ∀ (adv : List (List ℝ)) (n e : ℕ),
      (r.recurrent_generator adv n e).length = n) :
    (epochSamples cfg r).length = cfg.ppo_epoch * cfg.num_mini_batch := by
  rw [epochSamples, List.length_flatten, List.map_map]
  have hrep : (List.range cfg.ppo_epoch).map
      (List.length ∘ fun e => r.recurrent_generator (get_advantages cfg r) cfg.num_mini_batch e)
      = (List.range cfg.ppo_epoch).map (fun _ => cfg.num_mini_batch) := by
    apply List.map_congr_left
    intro e _
    exact hgen _ _ _
  rw [hrep, sum_map_const_nat, List.length_range, Nat.mul_comm]

/-- The trace emitted by `update` is the concatenation of the per-minibatch
event blocks, in minibatch order. -/
theorem updateTrace_eq (cfg : PPOConfig) (r : Rollouts) :
    updateTrace cfg r = ((epochSamples cfg r).map (minibatchEvents cfg)).flatten := by
  show ((epochSamples cfg r).foldl (updateStep cfg)
      ⟨[], 0, 0, 0, 0, 0, 0⟩).trace = _
  rw [updateFold_trace]
  rfl

/-- C2: in every minibatch the loss backpropagated is exactly `value_loss +
action_loss + offset_loss - entropy_loss`, and the call sequence is exactly
`zero_grad`, `before_backward`, `backward`, `after_backward`, `before_step`,
`optimizer.step`, `after_step`, emitted unconditionally for each of the
`ppo_epoch × num_mini_batch` minibatches (given the generator's contract of
`num_mini_batch` minibatches per epoch), so the full trace has
`7 × ppo_epoch × num_mini_batch` events with none skipped. -/
theorem C2_update_loop_trace (cfg : PPOConfig) (r : Rollouts)
    (hgen : ∀ (adv : List (List ℝ)) (n e : ℕ),
      (r.recurrent_generator adv n e).length = n) :
    updateTrace cfg r
      = ((epochSamples cfg r).map (fun mb =>
          [UpdateEvent.zeroGrad,
           UpdateEvent.beforeBackward (value_loss cfg mb + action_loss cfg mb
             + offset_loss cfg mb - entropy_loss cfg mb),
           UpdateEvent.backwardStep (value_loss cfg mb + action_loss cfg mb
             + offset_loss cfg mb - entropy_loss cfg mb),
           UpdateEvent.afterBackward (value_loss cfg mb + action_loss cfg mb
             + offset_loss cfg mb - entropy_loss cfg mb),
           UpdateEvent.beforeStep, UpdateEvent.optimizerStep,
           UpdateEvent.afterStep])).flatten
    ∧ (epochSamples cfg r).length = cfg.ppo_epoch * cfg.num_mini_batch
    ∧ (updateTrace cfg r).length = 7 * (cfg.ppo_epoch * cfg.num_mini_batch) := by
  have hlen := epochSamples_length cfg r hgen
  refine ⟨updateTrace_eq cfg r, hlen, ?_⟩
  rw [updateTrace_eq, List.length_flatten, List.map_map]
  have hconst : (List.length ∘ minibatchEvents cfg) = fun _ => 7 := by
    funext mb
    rfl
  rw [hconst, sum_map_const_nat, hlen]

/-- Witness for C2: a concrete config (one epoch, two minibatches) and a
generator honouring the length contract. -/
theorem C2_update_loop_trace_witness :
    updateTrace cfgBase rolloutsGen
      = ((epochSamples cfgBase rolloutsGen).map (fun mb =>
          [UpdateEvent.zeroGrad,
           UpdateEvent.beforeBackward (value_loss cfgBase mb + action_loss cfgBase mb
             + offset_loss cfgBase mb - entropy_loss cfgBase mb),
           UpdateEvent.backwardStep (value_loss cfgBase mb + action_loss cfgBase mb
             + offset_loss cfgBase mb - entropy_loss cfgBase mb),
           UpdateEvent.afterBackward (value_loss cfgBase mb + action_loss cfgBase mb
             + offset_loss cfgBase mb - entropy_loss cfgBase mb),
           UpdateEvent.beforeStep, UpdateEvent.optimizerStep,
           UpdateEvent.afterStep])).flatten
    ∧ (epochSamples cfgBase rolloutsGen).length
        = cfgBase.ppo_epoch * cfgBase.num_mini_batch
    ∧ (updateTrace cfgBase rolloutsGen).length
        = 7 * (cfgBase.ppo_epoch * cfgBase.num_mini_batch) :=
  C2_update_loop_trace cfgBase rolloutsGen (fun _ n _ => by simp [rolloutsGen])

/-- C10: when `ppo_epoch * num_mini_batch = 0`, `update` performs no gradient
step and ends in `ZeroDivisionError` instead of returning; when it is
positive, `update` returns the six-tuple of accumulated sums each divided by
`ppo_epoch * num_mini_batch`. -/
theorem C10_num_updates_division (cfg : PPOConfig) (r : Rollouts)
    (hgen : ∀ (adv : List (List ℝ)) (n e : ℕ),
      (r.recurrent_generator adv n e).length = n) :
    (cfg.ppo_epoch * cfg.num_mini_batch = 0 →
      (update cfg r).2 = Except.error PyError.zeroDivision
      ∧ UpdateEvent.optimizerStep ∉ updateTrace cfg r)
    ∧ (cfg.ppo_epoch * cfg.num_mini_batch ≠ 0 →
      (update cfg r).2 = Except.ok
        (((epochSamples cfg r).map (value_loss cfg)).sum
            / ((cfg.ppo_epoch * cfg.num_mini_batch : ℕ) : ℝ),
         ((epochSamples cfg r).map (action_loss cfg)).sum
            / ((cfg.ppo_epoch * cfg.num_mini_batch : ℕ) : ℝ),
         ((epochSamples cfg r).map (entropy_loss cfg)).sum
            / ((cfg.ppo_epoch * cfg.num_mini_batch : ℕ) : ℝ),
         ((epochSamples cfg r).map (fun mb => lmean mb.entropy_pano)).sum
            / ((cfg.ppo_epoch * cfg.num_mini_batch : ℕ) : ℝ),
         ((epochSamples cfg r).map (fun mb => lmean mb.entropy_offset)).sum
            / ((cfg.ppo_epoch * cfg.num_mini_batch : ℕ) : ℝ),
         ((epochSamples cfg r).map (fun mb => lmean mb.entropy_distance)).sum
            / ((cfg.ppo_epoch * cfg.num_mini_batch : ℕ) : ℝ))) := by
  constructor
  · intro h0
    constructor
    · show (if cfg.ppo_epoch * cfg.num_mini_batch = 0
          then Except.error PyError.zeroDivision else _)
        = Except.error PyError.zeroDivision
      rw [if_pos h0]
    · have hsam : epochSamples cfg r = [] :=
        List.length_eq_zero.mp ((epochSamples_length cfg r hgen).trans h0)
      rw [updateTrace_eq, hsam]
      simp
  · intro hne
    show (if cfg.ppo_epoch * cfg.num_mini_batch = 0
        then Except.error PyError.zeroDivision else Except.ok _) = _
    rw [if_neg hne]
    have hv := updateFold_proj cfg UpdAcc.vsum (value_loss cfg)
      (fun _ _ => rfl) (epochSamples cfg r) ⟨[], 0, 0, 0, 0, 0, 0⟩
    have ha := updateFold_proj cfg UpdAcc.asum (action_loss cfg)
      (fun _ _ => rfl) (epochSamples cfg r) ⟨[], 0, 0, 0, 0, 0, 0⟩
    have he := updateFold_proj cfg UpdAcc.esum (entropy_loss cfg)
      (fun _ _ => rfl) (epochSamples cfg r) ⟨[], 0, 0, 0, 0, 0, 0⟩
    have hp := updateFold_proj cfg UpdAcc.psum (fun mb => lmean mb.entropy_pano)
      (fun _ _ => rfl) (epochSamples cfg r) ⟨[], 0, 0, 0, 0, 0, 0⟩
    have ho := updateFold_proj cfg UpdAcc.osum (fun mb => lmean mb.entropy_offset)
      (fun _ _ => rfl) (epochSamples cfg r) ⟨[], 0, 0, 0, 0, 0, 0⟩
    have hd := updateFold_proj cfg UpdAcc.dsum (fun mb => lmean mb.entropy_distance)
      (fun _ _ => rfl) (epochSamples cfg r) ⟨[], 0, 0, 0, 0, 0, 0⟩
    rw [hv, ha, he, hp, ho, hd]
    norm_num

/-- Witness for C10: with `ppo_epoch = 0` the result is the division error and
no optimizer step was taken. -/
theorem C10_num_updates_division_witness :
    (update cfgC10 rolloutsGen).2 = Except.error PyError.zeroDivision
    ∧ UpdateEvent.optimizerStep ∉ updateTrace cfgC10 rolloutsGen :=
  (C10_num_updates_division cfgC10 rolloutsGen
    (fun _ n _ => by simp [rolloutsGen])).1 rfl

/-- C5: on the `T = 5`, `N = 2` rollout with constant returns `10` and
constant value predictions `8` (raw advantage `2` everywhere),
`get_advantages` with normalization enabled returns the all-zero tensor: the
numerator `x - mean` vanishes, so the zero standard deviation (kept finite by
the `1e-5` term) produces no NaN/Inf. -/
theorem C5_constant_advantage_all_zero :
    get_advantages { cfgBase with use_normalized_advantage := true } rolloutsC5
      = [[0, 0], [0, 0], [0, 0], [0, 0], [0, 0]] := by
  have hadv : raw_advantages rolloutsC5.returns rolloutsC5.value_preds
      = [[2, 2], [2, 2], [2, 2], [2, 2], [2, 2]] := by
    norm_num [raw_advantages, rolloutsC5]
  have hm : tmean ([[2, 2], [2, 2], [2, 2], [2, 2], [2, 2]] : List (List ℝ)) = 2 := by
    norm_num [tmean, lmean]
  rw [get_advantages]
  norm_num [hadv, cfgBase, hm]

/-! ### Lemmas about the streaming dataset -/

theorem popLast_eq_some {P : Type} {l t : List P} {a : P}
    (h : popLast l = some (a, t)) : l = t ++ [a] := by
  rw [popLast] at h
  cases hr : l.reverse with
  | nil => rw [hr] at h; cases h
  | cons b r =>
      rw [hr] at h
      injection h with h'
      have hb : b = a := congrArg Prod.fst h'
      have ht : r.reverse = t := congrArg Prod.snd h'
      have hl : l = (b :: r).reverse := by rw [← hr, List.reverse_reverse]
      rw [hl, List.reverse_cons, ht, hb]

theorem popLast_isSome_of_ne_nil {P : Type} {l : List P} (h : l ≠ []) :
    ∃ a t, popLast l = some (a, t) := by
  rw [popLast]
  cases hr : l.reverse with
  | nil => exact absurd (List.reverse_eq_nil_iff.mp hr) h
  | cons b r => exact ⟨b, r.reverse, rfl⟩

/-- The refill loop consumes the load ordering from the tail: the fetched
indices followed by the reversed remaining queue are exactly the reversed
initial queue. -/
theorem refillAux_fetch {P : Type} (cfg : DConfig P) :
    ∀ (fuel : ℕ) (queue : List ℕ) (acc : List P), queue.length ≤ fuel →
      (refillAux cfg fuel queue acc).2.2
          ++ (refillAux cfg fuel queue acc).2.1.reverse
        = queue.reverse := by
  intro fuel
  induction fuel with
  | zero =>
      intro queue acc h
      rw [List.length_eq_zero.mp (Nat.le_zero.mp h)]
      rfl
  | succ n ih =>
      intro queue acc h
      simp only [refillAux]
      by_cases hlt : acc.length < cfg.preload_size
      · rw [if_pos hlt]
        cases hpop : popLast queue with
        | none => simp
        | some pr =>
            obtain ⟨i, rest⟩ := pr
            have hq : queue = rest ++ [i] := popLast_eq_some hpop
            have hrest : rest.length ≤ n := by
              have hln := congrArg List.length hq
              simp at hln
              omega
            show (i :: (refillAux cfg n rest (acc ++ cfg.store i)).2.2)
                ++ (refillAux cfg n rest (acc ++ cfg.store i)).2.1.reverse
              = queue.reverse
            rw [List.cons_append, ih rest _ hrest, hq]
            simp
      · rw [if_neg hlt]
        simp

theorem refill_fetch {P : Type} (cfg : DConfig P) (queue : List ℕ) (acc : List P) :
    (refillLoop cfg queue acc).2.2 ++ (refillLoop cfg queue acc).2.1.reverse
      = queue.reverse :=
  refillAux_fetch cfg queue.length queue acc le_rfl

/-- The refill loop only ever appends to the accumulated preload. -/
theorem refillAux_expand {P : Type} (cfg : DConfig P) :
    ∀ (fuel : ℕ) (queue : List ℕ) (acc : List P),
      ∃ t, (refillAux cfg fuel queue acc).1 = acc ++ t := by
  intro fuel
  induction fuel with
  | zero => intro queue acc; exact ⟨[], by simp [refillAux]⟩
  | succ n ih =>
      intro queue acc
      by_cases hlt : acc.length < cfg.preload_size
      · cases hpop : popLast queue with
        | none => exact ⟨[], by simp [refillAux, if_pos hlt, hpop]⟩
        | some pr =>
            obtain ⟨i, rest⟩ := pr
            obtain ⟨t, ht⟩ := ih rest (acc ++ cfg.store i)
            refine ⟨cfg.store i ++ t, ?_⟩
            simp only [refillAux, if_pos hlt, hpop]
            rw [ht, List.append_assoc]
      · exact ⟨[], by simp [refillAux, if_neg hlt]⟩

/-- With a positive preload target, a nonempty queue, and records that all
decode to at least one pair, the refill loop returns a nonempty preload. -/
theorem refill_ne_nil {P : Type} (cfg : DConfig P) (hp : 0 < cfg.preload_size)
    {queue : List ℕ} (hq : queue ≠ [])
    (hstore : ∀ i, cfg.store i ≠ []) :
    (refillLoop cfg queue []).1 ≠ [] := by
  obtain ⟨a, t, hpop⟩ := popLast_isSome_of_ne_nil hq
  have hlen : queue.length = t.length + 1 := by
    rw [popLast_eq_some hpop]
    simp
  rw [refillLoop, hlen]
  simp only [refillAux]
  rw [if_pos (show (([] : List P)).length < cfg.preload_size by simpa using hp), hpop]
  obtain ⟨t', ht'⟩ := refillAux_expand cfg t.length t ([] ++ cfg.store a)
  show (refillAux cfg t.length t ([] ++ cfg.store a)).1 ≠ []
  rw [ht']
  simp only [List.nil_append]
  intro hcontra
  exact hstore a (List.append_eq_nil.mp hcontra).1

/-- Per-call characterization of the fetched indices and the remaining
ordering: together (fetch order first, then the rest in pop order) they are
the pop-order listing of the queue the call started from — the freshly
regenerated block-shuffle when regeneration fired, the previous queue
otherwise. -/
theorem refillPhase_fetch {P : Type} (cfg : DConfig P) (ork : DOracles)
    (s : DState P) :
    (refillPhase cfg ork s).2.2 ++ (refillPhase cfg ork s).2.1.reverse
      = if s.preload.length < cfg.batch_size then
          (if s.load_ordering.length = 0 then
            block_shuffle ork.regen (List.range' s.dstart (s.dend - s.dstart))
              cfg.preload_size
          else s.load_ordering.reverse)
        else s.load_ordering.reverse := by
  by_cases h : s.preload.length < cfg.batch_size
  · by_cases hq : s.load_ordering.length = 0
    · simp only [refillPhase, if_pos h, if_pos hq]
      rw [refill_fetch, List.reverse_reverse]
    · simp only [refillPhase, if_pos h, if_neg hq]
      rw [refill_fetch]
  · simp only [refillPhase, if_neg h]
    simp

theorem load_next_parts {P : Type} (cfg : DConfig P) (ork : DOracles)
    (s : DState P) :
    (load_next cfg ork s).2.1.dstart = s.dstart
    ∧ (load_next cfg ork s).2.1.dend = s.dend
    ∧ (load_next cfg ork s).2.1.load_ordering = (refillPhase cfg ork s).2.1
    ∧ (load_next cfg ork s).2.2 = (refillPhase cfg ork s).2.2 := by
  simp only [load_next]
  cases hpop : popLast (refillPhase cfg ork s).1 with
  | none => simp [hpop]
  | some pr =>
      obtain ⟨p, rest⟩ := pr
      simp [hpop]

theorem dsRun_bounds {P : Type} (cfg : DConfig P) (orks : ℕ → DOracles) :
    ∀ (n : ℕ) (s : DState P),
      (dsRun cfg orks n s).2.1.dstart = s.dstart
      ∧ (dsRun cfg orks n s).2.1.dend = s.dend := by
  intro n
  induction n with
  | zero => intro s; exact ⟨rfl, rfl⟩
  | succ n ih =>
      intro s
      have h1 := load_next_parts cfg (orks n) (dsRun cfg orks n s).2.1
      constructor
      · show (load_next cfg (orks n) (dsRun cfg orks n s).2.1).2.1.dstart = s.dstart
        rw [h1.1, (ih s).1]
      · show (load_next cfg (orks n) (dsRun cfg orks n s).2.1).2.1.dend = s.dend
        rw [h1.2.1, (ih s).2]

/-- The central C8 invariant: at any point of a run started from `__iter__`'s
state, the fetched record indices so far, followed by the remaining queue in
pop order, decompose as a concatenation of passes, each pass a permutation of
the shard's index range `[start, end)`. -/
theorem dsRun_fetch_decomp {P : Type} (cfg : DConfig P) (orks : ℕ → DOracles)
    (w W : ℕ) (rg0 : List (List ℕ) → List (List ℕ))
    (hp : 0 < cfg.preload_size)
    (hrg0 : ∀ bl, List.Perm (rg0 bl) bl)
    (hregen : ∀ (n : ℕ) (bl : List (List ℕ)), List.Perm ((orks n).regen bl) bl) :
    ∀ n, ∃ R : List (List ℕ),
      (∀ q ∈ R, List.Perm q (List.range' (dsInit cfg w W rg0).dstart
          ((dsInit cfg w W rg0).dend - (dsInit cfg w W rg0).dstart)))
      ∧ (dsRun cfg orks n (dsInit cfg w W rg0)).2.2
          ++ ((dsRun cfg orks n (dsInit cfg w W rg0)).2.1).load_ordering.reverse
        = R.flatten := by
  intro n
  induction n with
  | zero =>
      refine ⟨[block_shuffle rg0 (List.range' (dsInit cfg w W rg0).dstart
        ((dsInit cfg w W rg0).dend - (dsInit cfg w W rg0).dstart))
          cfg.preload_size], ?_, ?_⟩
      · intro q hq
        rw [List.mem_singleton] at hq
        rw [hq]
        exact block_shuffle_perm hp (hrg0 _)
      · show ([] : List ℕ)
            ++ ((block_shuffle rg0 (List.range' (dsInit cfg w W rg0).dstart
              ((dsInit cfg w W rg0).dend - (dsInit cfg w W rg0).dstart))
                cfg.preload_size).reverse).reverse
          = _
        rw [List.nil_append, List.reverse_reverse]
        simp
  | succ n ih =>
      obtain ⟨R, hR, hEq⟩ := ih
      set sn := (dsRun cfg orks n (dsInit cfg w W rg0)).2.1 with hsn
      have hparts := load_next_parts cfg (orks n) sn
      have hfetch := refillPhase_fetch cfg (orks n) sn
      have hbd := dsRun_bounds cfg orks n (dsInit cfg w W rg0)
      have hF : (dsRun cfg orks (n + 1) (dsInit cfg w W rg0)).2.2
          = (dsRun cfg orks n (dsInit cfg w W rg0)).2.2
            ++ (load_next cfg (orks n) sn).2.2 := rfl
      have hS : (dsRun cfg orks (n + 1) (dsInit cfg w W rg0)).2.1
          = (load_next cfg (orks n) sn).2.1 := rfl
      by_cases h1 : sn.preload.length < cfg.batch_size
      · by_cases h2 : sn.load_ordering.length = 0
        · -- regeneration: a fresh pass starts
          rw [if_pos h1, if_pos h2] at hfetch
          have hord : sn.load_ordering = [] := List.length_eq_zero.mp h2
          refine ⟨R ++ [block_shuffle (orks n).regen
            (List.range' (dsInit cfg w W rg0).dstart
              ((dsInit cfg w W rg0).dend - (dsInit cfg w W rg0).dstart))
                cfg.preload_size], ?_, ?_⟩
          · intro q hq
            rw [List.mem_append, List.mem_singleton] at hq
            rcases hq with hq | hq
            · exact hR q hq
            · rw [hq]
              exact block_shuffle_perm hp (hregen n _)
          · rw [hF, hS, hparts.2.2.2, hparts.2.2.1, List.append_assoc, hfetch,
              hbd.1, hbd.2, List.flatten_append]
            have hFn : (dsRun cfg orks n (dsInit cfg w W rg0)).2.2 = R.flatten := by
              have hE := hEq
              rw [hord] at hE
              simpa using hE
            rw [hFn]
            simp
        · -- queue nonempty: the pass continues
          rw [if_pos h1, if_neg h2] at hfetch
          refine ⟨R, hR, ?_⟩
          rw [hF, hS, hparts.2.2.2, hparts.2.2.1, List.append_assoc, hfetch]
          exact hEq
      · -- no refill at all
        rw [if_neg h1] at hfetch
        refine ⟨R, hR, ?_⟩
        rw [hF, hS, hparts.2.2.2, hparts.2.2.1, List.append_assoc, hfetch]
        exact hEq

set_option maxRecDepth 10000

/-- C8: (general part) from `__iter__`'s initial state, the record indices a
worker fetches, together with the still-unconsumed queue, always decompose as
a sequence of passes, each pass a permutation of the shard's range
`[start, end)` — so each full pass visits every index exactly once and each
queue regeneration starts a fresh complete pass.  (Concrete part) over a
23-record shard with `preload_size = 30` (`batch_size = 3`), 22 calls make
exactly two full passes: the fetch trace is two whole traversals of
`[0, 23)`, the queue is exhausted, and every index was fetched exactly
twice. -/
theorem C8_pass_visits_once :
    (∀ (P : Type) (cfg : DConfig P) (orks : ℕ → DOracles) (w W : ℕ)
        (rg0 : List (List ℕ) → List (List ℕ)),
      0 < cfg.preload_size →
      (∀ bl : List (List ℕ), List.Perm (rg0 bl) bl) →
      (∀ (n : ℕ) (bl : List (List ℕ)), List.Perm ((orks n).regen bl) bl) →
      ∀ n, ∃ R : List (List ℕ),
        (∀ q ∈ R, List.Perm q (List.range' (dsInit cfg w W rg0).dstart
            ((dsInit cfg w W rg0).dend - (dsInit cfg w W rg0).dstart)))
        ∧ (dsRun cfg orks n (dsInit cfg w W rg0)).2.2
            ++ ((dsRun cfg orks n (dsInit cfg w W rg0)).2.1).load_ordering.reverse
          = R.flatten)
    ∧ ((dsRun cfg23 orksId 22 (dsInit cfg23 0 1 id)).2.2
          = List.range' 0 23 ++ List.range' 0 23
        ∧ (dsRun cfg23 orksId 22 (dsInit cfg23 0 1 id)).2.1.load_ordering = []
        ∧ ∀ i ∈ List.range' 0 23,
            (dsRun cfg23 orksId 22 (dsInit cfg23 0 1 id)).2.2.count i = 2) := by
  constructor
  · intro P cfg orks w W rg0 hp hrg0 hregen
    exact dsRun_fetch_decomp cfg orks w W rg0 hp hrg0 hregen
  · refine ⟨by decide, by decide, by decide⟩

/-- Witness for C8's general part: the 23-record scenario with the identity
shuffles, after five calls. -/
theorem C8_pass_visits_once_witness :
    ∃ R : List (List ℕ),
      (∀ q ∈ R, List.Perm q (List.range' (dsInit cfg23 0 1 id).dstart
          ((dsInit cfg23 0 1 id).dend - (dsInit cfg23 0 1 id).dstart)))
      ∧ (dsRun cfg23 orksId 5 (dsInit cfg23 0 1 id)).2.2
          ++ ((dsRun cfg23 orksId 5 (dsInit cfg23 0 1 id)).2.1).load_ordering.reverse
        = R.flatten :=
  C8_pass_visits_once.1 Unit cfg23 orksId 0 1 id (by decide)
    (fun bl => List.Perm.refl bl) (fun _ bl => List.Perm.refl bl) 5

/-! ### C9 : the stream never terminates (on a nonempty shard) -/

theorem filterMap_get?_range {P : Type} : ∀ l : List P,
    (List.range l.length).filterMap (fun i => l.get? i) = l := by
  intro l
  induction l with
  | nil => rfl
  | cons a l ih =>
      rw [List.length_cons, List.range_succ_eq_map, List.filterMap_cons,
        List.filterMap_map]
      show (match (a :: l).get? 0 with
        | none => List.filterMap ((fun i => (a :: l).get? i) ∘ Nat.succ)
            (List.range l.length)
        | some b => b :: List.filterMap ((fun i => (a :: l).get? i) ∘ Nat.succ)
            (List.range l.length)) = a :: l
      show a :: List.filterMap (fun i => l.get? i) (List.range l.length) = a :: l
      rw [ih]

theorem filterMap_get?_of_perm {P : Type} (l : List P) {idxs : List ℕ}
    (h : List.Perm idxs (List.range l.length)) :
    List.Perm (idxs.filterMap (fun i => l.get? i)) l := by
  have hp := h.filterMap (fun i => l.get? i)
  rwa [filterMap_get?_range] at hp

/-- Per-call safety: with positive batch and preload sizes, a nonempty shard,
records that each decode to at least one pair, and permutation-respecting
shuffles, `_load_next` always returns an item (`self._preload.pop()` never
hits an empty buffer). -/
theorem load_next_isSome {P : Type} (cfg : DConfig P) (ork : DOracles)
    (s : DState P)
    (hb : 0 < cfg.batch_size) (hp : 0 < cfg.preload_size)
    (hsh : s.dstart < s.dend)
    (hstore : ∀ i, cfg.store i ≠ [])
    (hregen : ∀ bl : List (List ℕ), List.Perm (ork.regen bl) bl)
    (hsort : ∀ l : List ℕ, List.Perm (ork.sortSh l) l)
    (hblock : ∀ bl : List (List ℕ), List.Perm (ork.blockSh bl) bl) :
    ((load_next cfg ork s).1).isSome = true := by
  suffices hne : (refillPhase cfg ork s).1 ≠ [] by
    obtain ⟨a, t, hpop⟩ := popLast_isSome_of_ne_nil hne
    simp only [load_next, hpop]
    rfl
  by_cases h : s.preload.length < cfg.batch_size
  · simp only [refillPhase, if_pos h]
    set queue0 := (if s.load_ordering.length = 0 then
        (block_shuffle ork.regen (List.range' s.dstart (s.dend - s.dstart))
          cfg.preload_size).reverse
      else s.load_ordering) with hqueue0
    have hq0 : queue0 ≠ [] := by
      rw [hqueue0]
      by_cases hq : s.load_ordering.length = 0
      · rw [if_pos hq]
        have hperm := block_shuffle_perm hp
          (hregen (toBlocks cfg.preload_size
            (List.range' s.dstart (s.dend - s.dstart))))
        have hlen := hperm.length_eq
        rw [List.length_range'] at hlen
        intro hcontra
        have hl0 := congrArg List.length hcontra
        rw [List.length_reverse, hlen] at hl0
        simp at hl0
        omega
      · rw [if_neg hq]
        intro hcontra
        exact hq (by rw [hcontra]; rfl)
    have hnp := refill_ne_nil cfg hp hq0 hstore
    set np := (refillLoop cfg queue0 []).1 with hnpdef
    have hidx : List.Perm (block_shuffle ork.blockSh
        (ork.sortSh (List.range np.length)) cfg.batch_size)
        (List.range np.length) :=
      (block_shuffle_perm hb
        (hblock (toBlocks cfg.batch_size (ork.sortSh (List.range np.length))))).trans
        (hsort (List.range np.length))
    have happ := filterMap_get?_of_perm np hidx
    intro hcontra
    obtain ⟨-, happnil⟩ := List.append_eq_nil.mp hcontra
    rw [happnil] at happ
    have hnplen := happ.length_eq
    simp at hnplen
    exact hnp (List.length_eq_zero.mp hnplen.symm)
  · simp only [refillPhase, if_neg h]
    intro hcontra
    rw [hcontra] at h
    simp at h
    omega

/-- C9 counterexample: over an empty store the single worker's shard is
`[0, 0)`; already the first `__next__` call finds both the queue (even after
regeneration) and the preload buffer empty, and `self._preload.pop()` raises
`IndexError` (modeled as `none`) — the stream is NOT unbounded for an empty
shard. -/
theorem C9_empty_shard_counterexample :
    (dsRun cfgEmptyShard orksId 1 (dsInit cfgEmptyShard 0 1 id)).1 = [none] := by
  decide

/-- C9 (amended): for every worker shard whose index range is NONEMPTY, with
positive batch and preload sizes, records that each decode to at least one
pair, and permutation-respecting shuffles, the item stream never reaches a
terminal state: every `__next__` call yields a pair, the emptied load
ordering queue being regenerated in place.  (For an empty shard the first
call instead fails with `IndexError`, see the counterexample.) -/
theorem C9_unbounded_stream_amended (P : Type) (cfg : DConfig P)
    (orks : ℕ → DOracles) (w W : ℕ) (rg0 : List (List ℕ) → List (List ℕ))
    (hb : 0 < cfg.batch_size) (hp : 0 < cfg.preload_size)
    (hsh : (dsInit cfg w W rg0).dstart < (dsInit cfg w W rg0).dend)
    (hstore : ∀ i, cfg.store i ≠ [])
    (hregen : ∀ (n : ℕ) (bl : List (List ℕ)), List.Perm ((orks n).regen bl) bl)
    (hsort : ∀ (n : ℕ) (l : List ℕ), List.Perm ((orks n).sortSh l) l)
    (hblock : ∀ (n : ℕ) (bl : List (List ℕ)), List.Perm ((orks n).blockSh bl) bl) :
    ∀ n, ((dsRun cfg orks n (dsInit cfg w W rg0)).1).all Option.isSome = true := by
  intro n
  induction n with
  | zero => rfl
  | succ n ih =>
      have hbd := dsRun_bounds cfg orks n (dsInit cfg w W rg0)
      have hsome := load_next_isSome cfg (orks n)
        (dsRun cfg orks n (dsInit cfg w W rg0)).2.1 hb hp
        (by rw [hbd.1, hbd.2]; exact hsh) hstore (hregen n) (hsort n) (hblock n)
      show ((dsRun cfg orks n (dsInit cfg w W rg0)).1
          ++ [(load_next cfg (orks n)
            (dsRun cfg orks n (dsInit cfg w W rg0)).2.1).1]).all Option.isSome = true
      rw [List.all_append, ih]
      simp [hsome]

/-- Witness for C9 (amended): a one-record store, one worker, three calls. -/
theorem C9_unbounded_stream_witness :
    ((dsRun cfgOneRecord orksId 3 (dsInit cfgOneRecord 0 1 id)).1).all
      Option.isSome = true :=
  C9_unbounded_stream_amended Unit cfgOneRecord orksId 0 1 id (by decide)
    (by decide) (by decide) (fun _ => List.cons_ne_nil () [])
    (fun _ bl => List.Perm.refl bl) (fun _ l => List.Perm.refl l)
    (fun _ bl => List.Perm.refl bl) 3

end VLNCE
